import Mathlib

/-!
Verification of the page-classification engine of the order-splitter app
(`src/streamlit_app.py`): key normalization (`normalize_key`), candidate
extraction (`extract_candidates`), vendor-index construction, per-page
classification / routing, and the run-level aggregation loop
(`process_store_ui`).

The Python code is shallowly embedded: strings are `String` / `List Char`
(ASCII-faithful models of Python's `str.strip`, `str.upper`, `re` character
classes), dictionaries are insertion-ordered association lists with
overwrite-on-duplicate-key semantics, and the float confidence scores are
modelled as `ℚ` (the code only ever compares them, and the five possible
values 1.0, 0.9, 0.8, 0.7, 0.5 are far apart, so binary-float rounding can
never change a comparison).
-/

/-! ## Key Normalizer (src/streamlit_app.py, `normalize_key`, lines 37-42) -/

/-- The ASCII whitespace characters recognised by Python's `str.strip()` and
by the regex class `\s` (restricted to ASCII, which is all the code ever
feeds it). -/
def pySpace (c : Char) : Bool :=
  c = ' ' || c = '\t' || c = '\n' || c = '\r' || c = '\x0b' || c = '\x0c'

/-- The characters removed by the `.replace` chain in `normalize_key`:
space, hyphen, underscore, slash. -/
def removedChar (c : Char) : Bool :=
  c = ' ' || c = '-' || c = '_' || c = '/'

/-- Drop the characters satisfying `p` from both ends of a list; models
Python's `str.strip()` / `str.strip(chars)`. -/
def stripEnds (p : Char → Bool) (l : List Char) : List Char :=
  ((l.dropWhile p).reverse.dropWhile p).reverse

/-- Python `str.strip()` on the character list of a string. -/
def pyStrip (l : List Char) : List Char :=
  stripEnds pySpace l

/-- Model of `re.sub(r"^0+(?!$)", "", s)`: remove the maximal run of leading
zeros unless that run is the whole (nonempty) string, in which case a single
zero survives (the lookahead forces the engine to leave the last one). -/
def stripZeros (l : List Char) : List Char :=
  if l ≠ [] ∧ l.all (· == '0') then ['0'] else l.dropWhile (· == '0')

/-- Default of the sidebar checkbox `ZERO_SIGNIFICANT` (line 28:
`st.sidebar.checkbox("Treat leading zeros as significant", value=False)`).
When the flag is FALSE the leading-zero stripping step runs. -/
def ZERO_SIGNIFICANT_default : Bool := false

/-- `normalize_key` on a character list: strip surrounding whitespace; if
zeros are not significant, strip leading zeros; uppercase; remove
space/hyphen/underscore/slash.  Mirrors lines 37-42 of the source, with the
global `ZERO_SIGNIFICANT` threaded as an explicit argument. -/
def normalizeL (zeroSignificant : Bool) (l : List Char) : List Char :=
  let s1 := pyStrip l
  let s2 := if zeroSignificant then s1 else stripZeros s1
  (s2.map Char.toUpper).filter (fun c => !removedChar c)

/-- The key normalizer `normalize_key` of the source, on `String`. -/
def normalize_key (zeroSignificant : Bool) (s : String) : String :=
  ⟨normalizeL zeroSignificant s.data⟩

/-! ### Character-level facts used throughout -/

theorem char_toNat_ofNat {n : Nat} (h : n < 55296) : (Char.ofNat n).toNat = n := by
  have hv : Nat.isValidChar n := Or.inl h
  rw [Char.ofNat, dif_pos hv]
  rfl

theorem toUpper_toNat (c : Char) :
    (Char.toUpper c).toNat =
      if 97 ≤ c.toNat ∧ c.toNat ≤ 122 then c.toNat - 32 else c.toNat := by
  show (if c.toNat ≥ 97 ∧ c.toNat ≤ 122 then Char.ofNat (c.toNat - 32) else c).toNat = _
  split
  · next h => exact char_toNat_ofNat (by omega)
  · rfl

theorem char_eq_iff_toNat (c d : Char) : c = d ↔ c.toNat = d.toNat := by
  constructor
  · intro h; rw [h]
  · intro h
    exact Char.ext (UInt32.ext h)

theorem isAlphanum_iff (c : Char) :
    c.isAlphanum = true ↔ (65 ≤ c.toNat ∧ c.toNat ≤ 90) ∨ (97 ≤ c.toNat ∧ c.toNat ≤ 122) ∨
      (48 ≤ c.toNat ∧ c.toNat ≤ 57) := by
  simp only [Char.isAlphanum, Char.isAlpha, Char.isUpper, Char.isLower, Char.isDigit,
    Bool.or_eq_true, Bool.and_eq_true, decide_eq_true_eq, UInt32.le_def, BitVec.le_def,
    Char.toNat, UInt32.toNat]
  constructor
  · intro h
    rcases h with (h | h) | h <;> simp_all
  · intro h
    rcases h with h | h | h <;> simp_all

theorem toUpper_isAlphanum {c : Char} (h : c.isAlphanum = true) :
    (Char.toUpper c).isAlphanum = true := by
  rw [isAlphanum_iff] at h ⊢
  rw [toUpper_toNat]
  split <;> omega

theorem toUpper_toUpper (c : Char) : (Char.toUpper c).toUpper = Char.toUpper c := by
  rw [char_eq_iff_toNat, toUpper_toNat, toUpper_toNat]
  by_cases h : 97 ≤ c.toNat ∧ c.toNat ≤ 122
  · rw [if_pos h, if_neg (by omega)]
  · rw [if_neg h, if_neg h]

theorem alphanum_not_pySpace {c : Char} (h : c.isAlphanum = true) : pySpace c = false := by
  simp only [pySpace, Bool.or_eq_false_iff, decide_eq_false_iff_not]
  refine ⟨⟨⟨⟨⟨?_, ?_⟩, ?_⟩, ?_⟩, ?_⟩, ?_⟩ <;> (rintro rfl; revert h; decide)

theorem alphanum_not_removed {c : Char} (h : c.isAlphanum = true) : removedChar c = false := by
  simp only [removedChar, Bool.or_eq_false_iff, decide_eq_false_iff_not]
  refine ⟨⟨⟨?_, ?_⟩, ?_⟩, ?_⟩ <;> (rintro rfl; revert h; decide)

theorem toUpper_eq_zero_iff {c : Char} (h : c.isAlphanum = true) :
    (Char.toUpper c == '0') = (c == '0') := by
  rw [isAlphanum_iff] at h
  have h0 : ('0' : Char).toNat = 48 := by decide
  rcases Decidable.em (c = '0') with he | he
  · subst he; decide
  · have : c.toNat ≠ 48 := by
      intro hc
      exact he ((char_eq_iff_toNat c '0').mpr (by omega))
    have hu : (Char.toUpper c).toNat ≠ 48 := by
      rw [toUpper_toNat]
      split <;> omega
    have h1 : (Char.toUpper c = '0') = False := by
      simp [char_eq_iff_toNat, h0, hu]
    have h2 : (c = '0') = False := by
      simp [char_eq_iff_toNat, h0, this]
    simp [h1, h2]

/-! ### List-level helper lemmas for the normalizer -/

theorem dropWhile_eq_self_of {p : Char → Bool} {l : List Char}
    (h : ∀ c ∈ l, p c = false) : l.dropWhile p = l := by
  cases l with
  | nil => rfl
  | cons c t =>
    rw [List.dropWhile_cons, h c (by simp)]
    simp

theorem pyStrip_eq_self {l : List Char} (h : ∀ c ∈ l, pySpace c = false) :
    pyStrip l = l := by
  unfold pyStrip stripEnds
  rw [dropWhile_eq_self_of h]
  rw [dropWhile_eq_self_of (fun c hc => h c (List.mem_reverse.mp hc))]
  exact List.reverse_reverse l

theorem stripEnds_eq_self {p : Char → Bool} {l : List Char}
    (h : ∀ c ∈ l, p c = false) : stripEnds p l = l := by
  unfold stripEnds
  rw [dropWhile_eq_self_of h]
  rw [dropWhile_eq_self_of (fun c hc => h c (List.mem_reverse.mp hc))]
  exact List.reverse_reverse l

theorem dropWhile_head_false {p : Char → Bool} {c : Char} {t : List Char} :
    ∀ {l : List Char}, l.dropWhile p = c :: t → p c = false := by
  intro l
  induction l with
  | nil => intro h; simp at h
  | cons a l ih =>
    intro h
    rw [List.dropWhile_cons] at h
    by_cases ha : p a = true
    · rw [if_pos ha] at h
      exact ih h
    · rw [if_neg ha] at h
      cases h
      simpa using ha

theorem stripZeros_of_allZero {l : List Char} (h : l ≠ [] ∧ l.all (· == '0')) :
    stripZeros l = ['0'] := by
  unfold stripZeros
  rw [if_pos h]

theorem stripZeros_of_not {l : List Char} (h : ¬ (l ≠ [] ∧ l.all (· == '0'))) :
    stripZeros l = l.dropWhile (· == '0') := by
  unfold stripZeros
  rw [if_neg h]

theorem stripZeros_subset {l : List Char} : ∀ c ∈ stripZeros l, c ∈ l := by
  intro c hc
  unfold stripZeros at hc
  split at hc
  · next h =>
    simp at hc
    subst hc
    cases l with
    | nil => exact absurd rfl h.1
    | cons a t =>
      have := h.2
      simp [List.all_cons] at this
      simp [this.1]
  · exact List.dropWhile_sublist _ |>.mem hc

theorem stripZeros_mapUpper_fixed {l : List Char} (halnum : ∀ c ∈ l, c.isAlphanum = true) :
    stripZeros ((stripZeros l).map Char.toUpper) = (stripZeros l).map Char.toUpper := by
  by_cases h : l ≠ [] ∧ l.all (· == '0')
  · rw [stripZeros_of_allZero h]
    decide
  · rw [stripZeros_of_not h]
    cases hw : (l.dropWhile (· == '0')) with
    | nil => decide
    | cons c t =>
      have hc0 : (c == '0') = false := dropWhile_head_false (p := (· == '0')) hw
      have hcl : c ∈ l := (List.dropWhile_sublist _).mem (by rw [hw]; simp)
      have hcu : (Char.toUpper c == '0') = false := by
        rw [toUpper_eq_zero_iff (halnum c hcl)]
        exact hc0
      rw [stripZeros_of_not]
      · rw [List.map_cons, List.dropWhile_cons, hcu]
        simp
      · intro hcon
        have := hcon.2
        simp only [List.map_cons, List.all_cons, Bool.and_eq_true] at this
        rw [hcu] at this
        exact Bool.false_ne_true this.1

theorem mapUpper_idem (l : List Char) :
    (l.map Char.toUpper).map Char.toUpper = l.map Char.toUpper := by
  rw [List.map_map]
  exact List.map_congr_left (fun c _ => toUpper_toUpper c)

/-- On purely alphanumeric input the whitespace-strip and the
separator-removal steps of `normalize_key` are no-ops, so the normalizer is
uppercasing preceded (for insignificant zeros) by leading-zero removal. -/
theorem normalizeL_alnum (b : Bool) {l : List Char} (h : ∀ c ∈ l, c.isAlphanum = true) :
    normalizeL b l = (if b then l else stripZeros l).map Char.toUpper := by
  unfold normalizeL
  rw [pyStrip_eq_self (fun c hc => alphanum_not_pySpace (h c hc))]
  apply List.filter_eq_self.mpr
  intro a ha
  rcases List.mem_map.mp ha with ⟨c, hc, rfl⟩
  have hcl : c ∈ l := by
    by_cases hb : b
    · rw [if_pos hb] at hc
      exact hc
    · rw [if_neg hb] at hc
      exact stripZeros_subset c hc
  rw [alphanum_not_removed (toUpper_isAlphanum (h c hcl))]
  rfl

theorem dropWhile_zero_replicate (k : Nat) (x : List Char) :
    (List.replicate k '0' ++ x).dropWhile (· == '0') = x.dropWhile (· == '0') :=
  List.dropWhile_append_of_pos (by
    intro a ha
    rw [List.eq_of_mem_replicate ha]
    rfl)

/-- C3, counterexample: the normalizer is NOT idempotent.  With the default
configuration (leading zeros insignificant, so stripping enabled) the raw
token "-01" normalizes to "01" (the zero is protected by the leading "-"
when `re.sub` runs, and the "-" is removed only afterwards), but a second
application strips the now-leading zero, giving "1". -/
theorem c3_counterexample :
    normalize_key false (normalize_key false "-01") ≠ normalize_key false "-01" := by
  decide

/-- C3, amended: the normalizer is idempotent (for both values of the
configuration flag) on raw tokens made of alphanumeric characters only.
Tokens containing separator or whitespace characters can normalize further on
a second pass, as the counterexample "-01" shows. -/
theorem c3_amended_idempotent_on_alnum (b : Bool) (s : String)
    (h : ∀ c ∈ s.data, c.isAlphanum = true) :
    normalize_key b (normalize_key b s) = normalize_key b s := by
  unfold normalize_key
  show String.mk (normalizeL b (normalizeL b s.data)) = String.mk (normalizeL b s.data)
  rw [normalizeL_alnum b h]
  by_cases hb : b
  · subst hb
    rw [if_pos rfl]
    rw [normalizeL_alnum true (fun c hc => by
      rcases List.mem_map.mp hc with ⟨d, hd, rfl⟩
      exact toUpper_isAlphanum (h d hd))]
    rw [if_pos rfl, mapUpper_idem]
  · have hb' : b = false := Bool.eq_false_iff.mpr hb
    subst hb'
    rw [if_neg (by simp)]
    rw [normalizeL_alnum false (fun c hc => by
      rcases List.mem_map.mp hc with ⟨d, hd, rfl⟩
      exact toUpper_isAlphanum (h d (stripZeros_subset d hd)))]
    rw [if_neg (by simp)]
    rw [stripZeros_mapUpper_fixed h, mapUpper_idem]

/-- C3, witness for the amended theorem at flag false and token "A1". -/
theorem c3_amended_witness :
    normalize_key false (normalize_key false "A1") = normalize_key false "A1" :=
  c3_amended_idempotent_on_alnum false "A1" (by decide)

/-- C7: a raw token consisting entirely of zeros normalizes, with
leading-zero stripping enabled (`ZERO_SIGNIFICANT = False`, which is the
spec's `stripLeadingZeros = true`), to exactly "0" - never the empty
string. -/
theorem c7_allzero_nonempty (s : String) (h1 : s.data ≠ [])
    (h2 : ∀ c ∈ s.data, c = '0') :
    normalize_key false s = "0" ∧ normalize_key false s ≠ "" := by
  have halnum : ∀ c ∈ s.data, c.isAlphanum = true := by
    intro c hc
    rw [h2 c hc]
    decide
  have : normalize_key false s = "0" := by
    unfold normalize_key
    rw [normalizeL_alnum false halnum, if_neg (by simp)]
    rw [stripZeros_of_allZero ⟨h1, List.all_eq_true.mpr (fun c hc => by rw [h2 c hc]; rfl)⟩]
    rfl
  exact ⟨this, by rw [this]; decide⟩

/-- C7, witness at the token "0000". -/
theorem c7_witness :
    normalize_key false "0000" = "0" ∧ normalize_key false "0000" ≠ "" :=
  c7_allzero_nonempty "0000" (by decide) (by decide)

/-- C4, counterexample: the claim says that under the default configuration
leading zeros are NOT dropped.  In the code the single boolean option is
`ZERO_SIGNIFICANT` with default `False`, and the zero-stripping step runs
exactly when it is `False` - so under the default configuration leading
zeros ARE dropped: "007" normalizes to "7". -/
theorem c4_counterexample :
    ZERO_SIGNIFICANT_default = false ∧
    normalize_key ZERO_SIGNIFICANT_default "007" = "7" ∧
    normalize_key ZERO_SIGNIFICANT_default "007" ≠ "007" := by
  refine ⟨rfl, by decide, by decide⟩

/-- C4, amended: the system exposes exactly one boolean option,
`ZERO_SIGNIFICANT` ("treat leading zeros as significant"), whose default is
`False`; leading-zero digits are dropped before key comparison exactly when
the option is `False` (the spec's `stripLeadingZeros` is its negation, so
that option's effective default is `true`, not `false`).  Stated on
alphanumeric tokens `0^k ++ s` with `s` not starting with another zero. -/
theorem c4_amended_default_strips (k : Nat) (s : String) (_hk : 0 < k)
    (h : ∀ c ∈ s.data, c.isAlphanum = true)
    (hh : s.data.head? ≠ some '0') (hne : s.data ≠ []) :
    ZERO_SIGNIFICANT_default = false ∧
    normalize_key false ⟨List.replicate k '0' ++ s.data⟩ = ⟨s.data.map Char.toUpper⟩ ∧
    normalize_key true ⟨List.replicate k '0' ++ s.data⟩ =
      ⟨List.replicate k '0' ++ s.data.map Char.toUpper⟩ := by
  rcases List.exists_cons_of_ne_nil hne with ⟨c, t, hc⟩
  have hc0 : (c == '0') = false := by
    rw [hc] at hh
    simp only [List.head?] at hh
    simp only [beq_eq_false_iff_ne, ne_eq]
    intro hcon
    exact hh (by rw [hcon])
  have halnumL : ∀ d ∈ List.replicate k '0' ++ s.data, d.isAlphanum = true := by
    intro d hd
    rcases List.mem_append.mp hd with hd | hd
    · rw [List.eq_of_mem_replicate hd]
      decide
    · exact h d hd
  have hdw : s.data.dropWhile (· == '0') = s.data := by
    rw [hc, List.dropWhile_cons, hc0]
    simp
  refine ⟨rfl, ?_, ?_⟩
  · unfold normalize_key
    show String.mk (normalizeL false (List.replicate k '0' ++ s.data)) = _
    rw [normalizeL_alnum false halnumL, if_neg (by simp)]
    rw [stripZeros_of_not (by
      intro hcon
      have := List.all_eq_true.mp hcon.2 c (by rw [hc]; exact List.mem_append_right _ (by simp))
      rw [hc0] at this
      exact Bool.false_ne_true this)]
    rw [dropWhile_zero_replicate, hdw]
  · unfold normalize_key
    show String.mk (normalizeL true (List.replicate k '0' ++ s.data)) = _
    rw [normalizeL_alnum true halnumL, if_pos rfl]
    rw [List.map_append, List.map_replicate]
    rfl

/-- C4, witness for the amended theorem: "0A1" (one leading zero, then
"A1"). -/
theorem c4_amended_witness :
    ZERO_SIGNIFICANT_default = false ∧
    normalize_key false ⟨List.replicate 1 '0' ++ "A1".data⟩ = ⟨"A1".data.map Char.toUpper⟩ ∧
    normalize_key true ⟨List.replicate 1 '0' ++ "A1".data⟩ =
      ⟨List.replicate 1 '0' ++ "A1".data.map Char.toUpper⟩ :=
  c4_amended_default_strips 1 "A1" (by decide) (by decide) (by decide) (by decide)

/-! ## Candidate Extractor (src/streamlit_app.py, `extract_candidates` and
`ANCHOR_PATTERNS`, lines 30-35 and 56-64)

The four anchor regexes are specialised into direct backtracking matchers.
Each regex has the shape `(anchor-part)([A-Z0-9][A-Z0-9\-_/]{2,})` and is
scanned with `re.finditer(..., flags=re.IGNORECASE)`; `finditer` tries each
position left to right and resumes after the end of every (always nonempty)
match.  Greedy `\s*` runs followed by a mandatory non-space item are
deterministic, so the only genuine backtracking is across the alternation
`(?:\s*#|(?:\s*Number)?)` in the Model pattern and the optional groups,
which the matchers try in the regex engine's order. -/

/-- `[A-Z0-9]` under `re.IGNORECASE` (ASCII): the first token character. -/
def isTokenStart (c : Char) : Bool := c.isAlphanum

/-- `[A-Z0-9\-_/]` under `re.IGNORECASE` (ASCII): subsequent token characters. -/
def isTokenChar (c : Char) : Bool := c.isAlphanum || c = '-' || c = '/' || c = '_'

/-- `\w` (ASCII): a word character, for the `\b` boundaries of the SKU
pattern. -/
def isWordChar (c : Char) : Bool := c.isAlphanum || c = '_'

/-- Case-insensitive literal match: `pat` is given in lowercase; returns the
rest of the input after the literal, or `none`. -/
def matchLitCI : List Char → List Char → Option (List Char)
  | [], l => some l
  | _ :: _, [] => none
  | p :: ps, c :: cs => if c.toLower = p then matchLitCI ps cs else none

/-- The token part `([A-Z0-9][A-Z0-9\-_/]{2,})` (greedy, nothing follows it
in any pattern): returns (captured token, rest) or `none`. -/
def matchToken : List Char → Option (List Char × List Char)
  | [] => none
  | c :: cs =>
    if isTokenStart c then
      let run := cs.takeWhile isTokenChar
      if 2 ≤ run.length then some (c :: run, cs.dropWhile isTokenChar) else none
    else none

/-- The common pattern tail `\s*[:\-]?\s*` followed by the token group.  The
greedy `\s*` runs are deterministic; if the optional `:`/`-` separator was
taken but the token then fails, the regex engine retries with the separator
not taken (which then necessarily fails too, since the token cannot start at
a `:`/`-`; the retry is kept for fidelity). -/
def matchTail (l : List Char) : Option (List Char × List Char) :=
  let l1 := l.dropWhile pySpace
  match l1 with
  | c :: cs =>
    if c = ':' ∨ c = '-' then
      match matchToken (cs.dropWhile pySpace) with
      | some r => some r
      | none => matchToken l1
    else matchToken l1
  | [] => none

/-- The Model pattern
`(Model(?:\s*#|(?:\s*Number)?)\s*[:\-]?\s*)([A-Z0-9][A-Z0-9\-_/]{2,})`
at one position.  Alternation order: first `\s*#`, then `\s*Number`
present, then the empty option. -/
def matchModelAt (l : List Char) : Option (List Char × List Char) :=
  match matchLitCI "model".data l with
  | none => none
  | some r =>
    let hashAlt : Option (List Char × List Char) :=
      match r.dropWhile pySpace with
      | '#' :: cs => matchTail cs
      | _ => none
    match hashAlt with
    | some res => some res
    | none =>
      let numberAlt : Option (List Char × List Char) :=
        match matchLitCI "number".data (r.dropWhile pySpace) with
        | some r2 => matchTail r2
        | none => none
      match numberAlt with
      | some res => some res
      | none => matchTail r

/-- The Item / Internet patterns
`(Anchor\s*#\s*[:\-]?\s*)([A-Z0-9][A-Z0-9\-_/]{2,})` at one position; the
`#` is mandatory. -/
def matchAnchorHashAt (anchor : List Char) (l : List Char) :
    Option (List Char × List Char) :=
  match matchLitCI anchor l with
  | none => none
  | some r =>
    match r.dropWhile pySpace with
    | '#' :: cs => matchTail cs
    | _ => none

/-- The SKU pattern `(\bSKU\b(?:\s*#)?\s*[:\-]?\s*)([A-Z0-9][A-Z0-9\-_/]{2,})`
at one position; `prev` is the character just before the position, for the
leading `\b`. -/
def matchSKUAt (prev : Option Char) (l : List Char) : Option (List Char × List Char) :=
  if (match prev with | some c => isWordChar c | none => false) then none
  else
    match matchLitCI "sku".data l with
    | none => none
    | some r =>
      if (match r with | c :: _ => isWordChar c | [] => false) then none
      else
        let hashOpt : Option (List Char × List Char) :=
          match r.dropWhile pySpace with
          | '#' :: cs => matchTail cs
          | _ => none
        match hashOpt with
        | some res => some res
        | none => matchTail r

/-- `re.finditer` scan: try the matcher at each position, left to right; on a
match, emit the captured token and resume right after the match (every match
consumes at least the anchor literal, so it is nonempty); otherwise advance
one character.  `prev` tracks the previous character for `\b`; fuel bounds
the recursion (one unit per position). -/
def scanAux (f : Option Char → List Char → Option (List Char × List Char)) :
    Nat → Option Char → List Char → List (List Char)
  | 0, _, _ => []
  | _ + 1, _, [] => []
  | fuel + 1, prev, c :: cs =>
    match f prev (c :: cs) with
    | some (tok, rest) => tok :: scanAux f fuel tok.getLast? rest
    | none => scanAux f fuel (some c) cs

/-- All matches of one pattern over the whole text, in order of occurrence. -/
def findAllPat (f : Option Char → List Char → Option (List Char × List Char))
    (l : List Char) : List (List Char) :=
  scanAux f (l.length + 1) none l

/-- `token.strip().strip(":#")` applied to a captured token (a no-op on the
token character class, kept for fidelity to line 62). -/
def pyTokenClean (tok : List Char) : List Char :=
  stripEnds (fun c => c = ':' || c = '#') (stripEnds pySpace tok)

/-- `extract_candidates` (lines 56-64): empty text short-circuits to no
candidates; otherwise CR and LF are replaced by spaces and the four anchor
patterns are scanned in declaration order, each over the whole text.
Candidates are `(label, rawToken)` pairs, grouped by pattern priority and in
text order within a pattern. -/
def extract_candidates (text : String) : List (String × String) :=
  if text = "" then []
  else
    let joined := text.data.map (fun c => if c = '\r' ∨ c = '\n' then ' ' else c)
    let grab := fun (f : Option Char → List Char → Option (List Char × List Char))
        (label : String) =>
      (findAllPat f joined).map (fun tok => (label, String.mk (pyTokenClean tok)))
    grab (fun _ l => matchModelAt l) "Model"
      ++ grab (fun _ l => matchAnchorHashAt "item".data l) "Item"
      ++ grab (fun _ l => matchAnchorHashAt "internet".data l) "Internet"
      ++ grab matchSKUAt "SKU"

/-! ## Vendor Index builder (src/streamlit_app.py, lines 111-120) -/

/-- One mapping-source row, reduced to the cells the build loop reads: the
raw string in the vendor column (`str(row[vendor_col])`) and the raw strings
in the key columns in column order (`str(row.get(col, ""))`). -/
structure Row where
  vendorCell : String
  keyCells : List String
deriving DecidableEq

/-- Python `str.strip()` on a `String`. -/
def strippedStr (s : String) : String :=
  ⟨pyStrip s.data⟩

/-- Insertion into a Python dict modelled as an insertion-ordered
association list: an existing key keeps its position and gets the new value,
a new key is appended at the end. -/
def dictInsert : List (String × String) → String → String → List (String × String)
  | [], k, v => [(k, v)]
  | (k0, v0) :: m, k, v =>
    if k0 = k then (k0, v) :: m else (k0, v0) :: dictInsert m k v

/-- Python `dict` lookup (`mapping[nz]`); keys are unique in a dict, so the
first hit is the only hit.  `nz in keyset` is exactly `lookup ... ≠ none`. -/
def lookup (m : List (String × String)) (k : String) : Option String :=
  (m.find? (fun p => p.1 = k)).map (fun p => p.2)

/-- The body of the index-building loop for one row (lines 113-119): a blank
or placeholder vendor cell skips the whole row; otherwise every key cell that
is nonblank and not a placeholder inserts `normalize_key(cell) -> vendor`. -/
def rowStep (zeroSignificant : Bool) (m : List (String × String)) (row : Row) :
    List (String × String) :=
  let vendor := strippedStr row.vendorCell
  if vendor = "" ∨ vendor = "nan" ∨ vendor = "None" then m
  else
    row.keyCells.foldl (fun m cell =>
      let v := strippedStr cell
      if v ≠ "" ∧ v ≠ "nan" ∧ v ≠ "None" then
        dictInsert m (normalize_key zeroSignificant v) vendor
      else m) m

/-- The vendor index (`mapping`) built from all rows (lines 111-120). -/
def buildMapping (zeroSignificant : Bool) (rows : List Row) : List (String × String) :=
  rows.foldl (rowStep zeroSignificant) []

/-! ## Page Classifier (src/streamlit_app.py, lines 160-189) -/

/-- A resolved match, the tuple
`(raw, nz, mapping[nz], label, "native", score)` of line 167. -/
structure Match where
  raw : String
  normalized : String
  vendor : String
  anchor : String
  method : String
  score : ℚ
deriving DecidableEq

/-- `[p[1] for p in ANCHOR_PATTERNS]` (line 165): the canonical anchor
priority order. -/
def anchorOrder : List String := ["Model", "Item", "Internet", "SKU"]

/-- `1.0 - 0.1 * order.index(label) if label in order else 0.5` (line 166),
with the float arithmetic carried out in `ℚ`. -/
def scoreFor (label : String) : ℚ :=
  match anchorOrder.findIdx? (fun x => x = label) with
  | some i => 1 - (i : ℚ) / 10
  | none => 1 / 2

/-- The match-building loop (lines 161-167): normalize each candidate's raw
token; candidates whose key is absent from the index are dropped, the others
become `Match`es. -/
def buildMatches (zeroSignificant : Bool) (mapping : List (String × String))
    (cands : List (String × String)) : List Match :=
  cands.filterMap (fun c =>
    let nz := normalize_key zeroSignificant c.2
    match lookup mapping nz with
    | some v => some ⟨c.2, nz, v, c.1, "native", scoreFor c.1⟩
    | none => none)

/-- Stable insert for descending score: the new element goes before the
first strictly smaller score, after equal ones processed later in
`sortDesc`'s right fold, which together reproduce Python's stable
`sorted(matches, key=lambda x: -x[5])`. -/
def insDesc (m : Match) : List Match → List Match
  | [] => [m]
  | b :: t => if b.score ≤ m.score then m :: b :: t else b :: insDesc m t

/-- Stable descending sort by score (the output of Python's stable sort is
determined by the key and the input order, so any stable descending sort is
the faithful model). -/
def sortDesc : List Match → List Match
  | [] => []
  | m :: ms => insDesc m (sortDesc ms)

/-- `sorted(matches, key=lambda x: -x[5])[0] if matches else None`
(line 174). -/
def bestOf (ms : List Match) : Option Match :=
  (sortDesc ms).head?

/-- The first element with the maximal score (reference definition used to
characterise `bestOf`). -/
def firstMax : List Match → Option Match
  | [] => none
  | m :: ms =>
    match firstMax ms with
    | none => some m
    | some b => if b.score > m.score then some b else some m

/-- Where a page is routed: a vendor accumulator, the mixed collection, or
the unmatched collection. -/
inductive Dest where
  | vendor (v : String)
  | mixed
  | unmatched
deriving DecidableEq

/-- One row of the audit log (the dict literals of lines 175-189). -/
structure LogRecord where
  store : String
  source_pdf : String
  page_index : String
  vendor : String
  raw_token : String
  normalized : String
  anchor : String
  method : String
  confidence : String
deriving DecidableEq

/-- `f-string "%.2f"` formatting for the nonnegative scores that occur here
(exact multiples of 1/10, so float rounding is invisible). -/
def fmt2 (q : ℚ) : String :=
  let n := (q * 100).floor.toNat
  let r := n % 100
  toString (n / 100) ++ "." ++ (if r < 10 then "0" ++ toString r else toString r)

/-- The outcome of processing one page: its destination and its log row. -/
structure PageResult where
  dest : Dest
  log : LogRecord
deriving DecidableEq

/-- The log dict of the routed branch (lines 175-177); `best` may be `None`
exactly when `matches` was empty. -/
def routedLog (store pdfName : String) (i : Nat) (v : String) (best : Option Match) :
    LogRecord :=
  { store := store, source_pdf := pdfName, page_index := toString i
    vendor := v
    raw_token := match best with | some b => b.raw | none => ""
    normalized := match best with | some b => b.normalized | none => ""
    anchor := match best with | some b => b.anchor | none => ""
    method := match best with | some b => b.method | none => ""
    confidence := match best with | some b => fmt2 b.score | none => "0.00" }

/-- The log dict of the mixed and unmatched branches (lines 182-183 and
188-189): `v` is the literal "MIXED" or "UNMATCHED", all evidence fields are
empty and the confidence is the literal "0.00". -/
def flaggedLog (store pdfName : String) (i : Nat) (v : String) : LogRecord :=
  { store := store, source_pdf := pdfName, page_index := toString i
    vendor := v, raw_token := "", normalized := ""
    anchor := "", method := "", confidence := "0.00" }

/-- The per-page classification / routing / logging block (lines 156-189):
extract candidates from the page text (an extraction failure has already
degraded to empty text), resolve them against the index, and branch on the
number of distinct vendors among the matches. -/
def processPage (zeroSignificant : Bool) (mapping : List (String × String))
    (store pdfName : String) (i : Nat) (text : String) : PageResult :=
  let cands := extract_candidates text
  let matchList := buildMatches zeroSignificant mapping cands
  let vendors := (matchList.map (fun m => m.vendor)).dedup
  match vendors with
  | [v] =>
    { dest := Dest.vendor v
      log := routedLog store pdfName i v (bestOf matchList) }
  | _ :: _ :: _ =>
    { dest := Dest.mixed, log := flaggedLog store pdfName i "MIXED" }
  | [] =>
    { dest := Dest.unmatched, log := flaggedLog store pdfName i "UNMATCHED" }

/-! ## Routing Aggregator and run loop (src/streamlit_app.py, lines 139-193)

Pages are identified by (document position, page index) - the identity of
the page object handed to the writers.  A document is modelled by its name
and the list of extracted page texts (a page whose extraction raised is
already represented by `""`, exactly what the `except` branch of lines
156-159 produces; a PDF that failed to open contributes no document). -/

structure Doc where
  name : String
  pages : List String
deriving DecidableEq

/-- A page identity: (document position among the processed PDFs, zero-based
page index). -/
abbrev PageId := Nat × Nat

/-- The run's mutable state: the per-vendor writers dict (`vendor_writers`),
the individually written mixed and unmatched pages, and the log list. -/
structure RunState where
  writers : List (String × List PageId)
  mixed : List PageId
  unmatched : List PageId
  logs : List LogRecord
deriving DecidableEq

/-- `ensure_writer(v)` followed by `add_page` (lines 140-143, 172-173): the
dict entry for `v` is created on first use (appended at the end) and the
page is appended to its list. -/
def ensure_writer_add : List (String × List PageId) → String → PageId →
    List (String × List PageId)
  | [], v, pg => [(v, [pg])]
  | (w, l) :: ws, v, pg =>
    if w = v then (w, l ++ [pg]) :: ws else (w, l) :: ensure_writer_add ws v pg

/-- Processing of one page inside the loop (lines 154-189): classify, then
append the page to exactly the accumulator its decision selects and append
the page's log record. -/
def stepPage (zeroSignificant : Bool) (mapping : List (String × String))
    (store : String) (st : RunState) (name : String) (docIdx i : Nat)
    (text : String) : RunState :=
  let r := processPage zeroSignificant mapping store name i text
  match r.dest with
  | Dest.vendor v =>
    { writers := ensure_writer_add st.writers v (docIdx, i), mixed := st.mixed
      unmatched := st.unmatched, logs := st.logs ++ [r.log] }
  | Dest.mixed =>
    { writers := st.writers, mixed := st.mixed ++ [(docIdx, i)]
      unmatched := st.unmatched, logs := st.logs ++ [r.log] }
  | Dest.unmatched =>
    { writers := st.writers, mixed := st.mixed
      unmatched := st.unmatched ++ [(docIdx, i)], logs := st.logs ++ [r.log] }

/-- The inner page loop `for i, page in enumerate(reader.pages)` starting at
page counter `i0` (0 for a real run). -/
def processPagesFrom (zeroSignificant : Bool) (mapping : List (String × String))
    (store name : String) (docIdx : Nat) :
    RunState → Nat → List String → RunState
  | st, _, [] => st
  | st, i, t :: ts =>
    processPagesFrom zeroSignificant mapping store name docIdx
      (stepPage zeroSignificant mapping store st name docIdx i t) (i + 1) ts

/-- The outer document loop `for pdf in pdfs` starting at document counter
`d0` (0 for a real run). -/
def processDocsFrom (zeroSignificant : Bool) (mapping : List (String × String))
    (store : String) : RunState → Nat → List Doc → RunState
  | st, _, [] => st
  | st, d, doc :: docs =>
    processDocsFrom zeroSignificant mapping store
      (processPagesFrom zeroSignificant mapping store doc.name d st 0 doc.pages)
      (d + 1) docs

/-- The initial, empty run state. -/
def emptyState : RunState :=
  { writers := [], mixed := [], unmatched := [], logs := [] }

/-- A whole run over the (successfully opened) documents. -/
def processRun (zeroSignificant : Bool) (mapping : List (String × String))
    (store : String) (docs : List Doc) : RunState :=
  processDocsFrom zeroSignificant mapping store emptyState 0 docs

/-- How many times a page identity occurs across ALL destinations (every
vendor writer, the mixed collection and the unmatched collection). -/
def pageCount (pg : PageId) (st : RunState) : Nat :=
  (st.writers.map (fun p => p.2.count pg)).sum + st.mixed.count pg + st.unmatched.count pg

/-! ### Shape lemmas for `processPage` -/

theorem processPage_eq_match (zs : Bool) (mp : List (String × String))
    (store name text : String) (i : Nat) :
    processPage zs mp store name i text =
      match ((buildMatches zs mp (extract_candidates text)).map (fun m => m.vendor)).dedup with
      | [v] => ⟨Dest.vendor v,
          routedLog store name i v (bestOf (buildMatches zs mp (extract_candidates text)))⟩
      | _ :: _ :: _ => ⟨Dest.mixed, flaggedLog store name i "MIXED"⟩
      | [] => ⟨Dest.unmatched, flaggedLog store name i "UNMATCHED"⟩ := rfl

theorem processPage_of_dedup_nil (zs : Bool) (mp : List (String × String))
    (store name text : String) (i : Nat)
    (h : ((buildMatches zs mp (extract_candidates text)).map (fun m => m.vendor)).dedup = []) :
    processPage zs mp store name i text =
      ⟨Dest.unmatched, flaggedLog store name i "UNMATCHED"⟩ := by
  rw [processPage_eq_match, h]

theorem processPage_of_dedup_single (zs : Bool) (mp : List (String × String))
    (store name text : String) (i : Nat) (v : String)
    (h : ((buildMatches zs mp (extract_candidates text)).map (fun m => m.vendor)).dedup = [v]) :
    processPage zs mp store name i text =
      ⟨Dest.vendor v,
       routedLog store name i v (bestOf (buildMatches zs mp (extract_candidates text)))⟩ := by
  rw [processPage_eq_match, h]

theorem processPage_of_dedup_multi (zs : Bool) (mp : List (String × String))
    (store name text : String) (i : Nat) (v1 v2 : String) (vt : List String)
    (h : ((buildMatches zs mp (extract_candidates text)).map (fun m => m.vendor)).dedup =
      v1 :: v2 :: vt) :
    processPage zs mp store name i text =
      ⟨Dest.mixed, flaggedLog store name i "MIXED"⟩ := by
  rw [processPage_eq_match, h]

/-! ### `bestOf` is the first maximal-score match -/

theorem insDesc_head (m : Match) (s : List Match) :
    (insDesc m s).head? =
      match s.head? with
      | none => some m
      | some b => if b.score > m.score then some b else some m := by
  cases s with
  | nil => rfl
  | cons b t =>
    show (if b.score ≤ m.score then m :: b :: t else b :: insDesc m t).head? = _
    by_cases h : b.score ≤ m.score
    · rw [if_pos h]
      simp [not_lt_of_le h]
    · rw [if_neg h]
      simp [lt_of_not_le h]

theorem firstMax_cons_none {ms : List Match} (m : Match) (hm : firstMax ms = none) :
    firstMax (m :: ms) = some m := by
  show (match firstMax ms with
        | none => some m
        | some b => if b.score > m.score then some b else some m) = some m
  rw [hm]

theorem firstMax_cons_some {ms : List Match} {c : Match} (m : Match)
    (hm : firstMax ms = some c) :
    firstMax (m :: ms) = if c.score > m.score then some c else some m := by
  show (match firstMax ms with
        | none => some m
        | some b => if b.score > m.score then some b else some m) = _
  rw [hm]

theorem head_sortDesc (l : List Match) : (sortDesc l).head? = firstMax l := by
  induction l with
  | nil => rfl
  | cons m ms ih =>
    show (insDesc m (sortDesc ms)).head? = _
    rw [insDesc_head, ih]
    cases hm : firstMax ms with
    | none => rw [firstMax_cons_none m hm]
    | some c => rw [firstMax_cons_some m hm]

theorem bestOf_eq_firstMax (l : List Match) : bestOf l = firstMax l :=
  head_sortDesc l

theorem firstMax_eq_none_iff (l : List Match) : firstMax l = none ↔ l = [] := by
  cases l with
  | nil => simp [firstMax]
  | cons m ms =>
    constructor
    · intro h
      cases hm : firstMax ms with
      | none => rw [firstMax_cons_none m hm] at h; exact absurd h (by simp)
      | some b =>
        rw [firstMax_cons_some m hm] at h
        by_cases hb : b.score > m.score <;> simp [hb] at h
    · intro h
      exact absurd h (by simp)

theorem firstMax_mem : ∀ {l : List Match} {b : Match}, firstMax l = some b → b ∈ l := by
  intro l
  induction l with
  | nil => intro b h; simp [firstMax] at h
  | cons m ms ih =>
    intro b h
    cases hm : firstMax ms with
    | none =>
      rw [firstMax_cons_none m hm] at h
      cases h
      exact List.mem_cons_self _ _
    | some c =>
      rw [firstMax_cons_some m hm] at h
      by_cases hc : c.score > m.score
      · rw [if_pos hc] at h
        cases h
        exact List.mem_cons_of_mem m (ih hm)
      · rw [if_neg hc] at h
        cases h
        exact List.mem_cons_self _ _

theorem firstMax_max : ∀ {l : List Match} {b : Match}, firstMax l = some b →
    ∀ m ∈ l, m.score ≤ b.score := by
  intro l
  induction l with
  | nil => intro b h; simp [firstMax] at h
  | cons m ms ih =>
    intro b h x hx
    cases hm : firstMax ms with
    | none =>
      rw [firstMax_cons_none m hm] at h
      cases h
      rcases List.mem_cons.mp hx with rfl | hx2
      · exact le_refl _
      · exact absurd ((firstMax_eq_none_iff ms).mp hm ▸ hx2) (by simp)
    | some c =>
      rw [firstMax_cons_some m hm] at h
      by_cases hc : c.score > m.score
      · rw [if_pos hc] at h
        cases h
        rcases List.mem_cons.mp hx with rfl | hx2
        · exact le_of_lt hc
        · exact ih hm x hx2
      · rw [if_neg hc] at h
        cases h
        rcases List.mem_cons.mp hx with rfl | hx2
        · exact le_refl _
        · exact le_trans (ih hm x hx2) (le_of_not_lt hc)

theorem firstMax_first : ∀ {l : List Match} {b : Match}, firstMax l = some b →
    ∃ l1 l2, l = l1 ++ b :: l2 ∧ ∀ m ∈ l1, m.score < b.score := by
  intro l
  induction l with
  | nil => intro b h; simp [firstMax] at h
  | cons m ms ih =>
    intro b h
    cases hm : firstMax ms with
    | none =>
      rw [firstMax_cons_none m hm] at h
      cases h
      exact ⟨[], ms, rfl, by simp⟩
    | some c =>
      rw [firstMax_cons_some m hm] at h
      by_cases hc : c.score > m.score
      · rw [if_pos hc] at h
        cases h
        rcases ih hm with ⟨l1, l2, hsplit, hlt⟩
        refine ⟨m :: l1, l2, by simp [hsplit], ?_⟩
        intro x hx
        rcases List.mem_cons.mp hx with rfl | hx2
        · exact hc
        · exact hlt x hx2
      · rw [if_neg hc] at h
        cases h
        exact ⟨[], ms, rfl, by simp⟩

/-- Every match produced by `buildMatches` carries the score that line 166
computes from its own anchor label, and a vendor that the index maps its
normalized key to. -/
theorem buildMatches_mem_spec (zs : Bool) (mp : List (String × String))
    (cands : List (String × String)) :
    ∀ m ∈ buildMatches zs mp cands,
      m.score = scoreFor m.anchor ∧
      m.method = "native" ∧
      lookup mp m.normalized = some m.vendor ∧
      ∃ c ∈ cands, m.anchor = c.1 ∧ m.raw = c.2 ∧ m.normalized = normalize_key zs c.2 := by
  intro m hm
  unfold buildMatches at hm
  rcases List.mem_filterMap.mp hm with ⟨c, hc, heq⟩
  have heq2 : (match lookup mp (normalize_key zs c.2) with
      | some v => some (⟨c.2, normalize_key zs c.2, v, c.1, "native", scoreFor c.1⟩ : Match)
      | none => none) = some m := heq
  cases hl : lookup mp (normalize_key zs c.2) with
  | none => rw [hl] at heq2; cases heq2
  | some v =>
    rw [hl] at heq2
    cases heq2
    exact ⟨rfl, rfl, hl, c, hc, rfl, rfl, rfl⟩

/-! ## Claim theorems -/

/-- C6: empty page text (the value to which a failed per-page extraction
degrades, lines 156-159) yields no candidates - by a total function, never
an error - and the page is classified Unmatched, with the UNMATCHED log
row. -/
theorem c6_empty_text_unmatched (zs : Bool) (mp : List (String × String))
    (store name : String) (i : Nat) :
    extract_candidates "" = [] ∧
    processPage zs mp store name i "" =
      ⟨Dest.unmatched, ⟨store, name, toString i, "UNMATCHED", "", "", "", "", "0.00"⟩⟩ :=
  ⟨rfl, processPage_of_dedup_nil zs mp store name "" i rfl⟩

/-- C6, witness at a concrete store/index. -/
theorem c6_witness :
    extract_candidates "" = [] ∧
    processPage false [("ABC123", "Acme")] "Depot" "a.pdf" 0 "" =
      ⟨Dest.unmatched, ⟨"Depot", "a.pdf", toString 0, "UNMATCHED", "", "", "", "", "0.00"⟩⟩ :=
  c6_empty_text_unmatched false [("ABC123", "Acme")] "Depot" "a.pdf" 0

/-- C9: a page classified Mixed or Unmatched gets a log row whose raw_token,
normalized, anchor and method fields are empty and whose confidence is the
literal "0.00" - for a Mixed page the resolved matches exist but are not
recorded (lines 178-189). -/
theorem c9_flagged_log_empty_fields (zs : Bool) (mp : List (String × String))
    (store name text : String) (i : Nat) :
    ((processPage zs mp store name i text).dest = Dest.mixed →
      (processPage zs mp store name i text).log =
        ⟨store, name, toString i, "MIXED", "", "", "", "", "0.00"⟩) ∧
    ((processPage zs mp store name i text).dest = Dest.unmatched →
      (processPage zs mp store name i text).log =
        ⟨store, name, toString i, "UNMATCHED", "", "", "", "", "0.00"⟩) := by
  cases hd : ((buildMatches zs mp (extract_candidates text)).map (fun m => m.vendor)).dedup with
  | nil =>
    rw [processPage_of_dedup_nil zs mp store name text i hd]
    exact ⟨fun h => by simp at h, fun _ => rfl⟩
  | cons v1 vt =>
    cases vt with
    | nil =>
      rw [processPage_of_dedup_single zs mp store name text i v1 hd]
      exact ⟨fun h => by simp at h, fun h => by simp at h⟩
    | cons v2 vt2 =>
      rw [processPage_of_dedup_multi zs mp store name text i v1 v2 vt2 hd]
      exact ⟨fun _ => rfl, fun h => by simp at h⟩

/-- C9, witness: a mixed page (two keys of different vendors) and an
unmatched page. -/
theorem c9_witness :
    (processPage false [("ABC123", "Acme"), ("XYZ999", "Beta")] "Depot" "a.pdf" 2
        "Model #: ABC-123 Item# XYZ999").log =
      ⟨"Depot", "a.pdf", toString 2, "MIXED", "", "", "", "", "0.00"⟩ ∧
    (processPage false [("ABC123", "Acme")] "Depot" "a.pdf" 3 "nothing here").log =
      ⟨"Depot", "a.pdf", toString 3, "UNMATCHED", "", "", "", "", "0.00"⟩ :=
  ⟨(c9_flagged_log_empty_fields false [("ABC123", "Acme"), ("XYZ999", "Beta")] "Depot" "a.pdf"
      "Model #: ABC-123 Item# XYZ999" 2).1 (by decide),
   (c9_flagged_log_empty_fields false [("ABC123", "Acme")] "Depot" "a.pdf"
      "nothing here" 3).2 (by decide)⟩

/-- C10: the nonempty raw tokens "---" (either flag) and "0--" (stripping
enabled) normalize to the empty string; a key cell "---" inserts the empty
key into the index; and an extracted candidate token "0--" then resolves to
that vendor by exact-match lookup on the empty key, routing the page. -/
theorem c10_empty_key_resolves :
    normalize_key true "---" = "" ∧
    normalize_key false "---" = "" ∧
    normalize_key false "0--" = "" ∧
    buildMapping false [⟨"Acme", ["---"]⟩] = [("", "Acme")] ∧
    extract_candidates "Model 0--" = [("Model", "0--")] ∧
    (processPage false (buildMapping false [⟨"Acme", ["---"]⟩]) "Depot" "a.pdf" 0
        "Model 0--").dest = Dest.vendor "Acme" ∧
    (processPage false (buildMapping false [⟨"Acme", ["---"]⟩]) "Depot" "a.pdf" 0
        "Model 0--").log.normalized = "" := by
  refine ⟨by decide, by decide, by decide, by decide, by decide, by decide, by decide⟩

/-- C8: a mapping-source row whose stripped vendor cell is blank or one of
the missing-value placeholders "nan" / "None" is skipped entirely by the
index builder (lines 113-115) and contributes no key entries, wherever it
occurs and whatever its key cells hold. -/
theorem c8_blank_vendor_row_skipped (zs : Bool) (pre post : List Row) (row : Row)
    (h : strippedStr row.vendorCell = "" ∨ strippedStr row.vendorCell = "nan" ∨
         strippedStr row.vendorCell = "None") :
    buildMapping zs (pre ++ row :: post) = buildMapping zs (pre ++ post) := by
  have hrow : ∀ st, rowStep zs st row = st := by
    intro st
    show (if strippedStr row.vendorCell = "" ∨ strippedStr row.vendorCell = "nan" ∨
          strippedStr row.vendorCell = "None" then st else _) = st
    rw [if_pos h]
  unfold buildMapping
  rw [List.foldl_append, List.foldl_append, List.foldl_cons, hrow]

/-- C8, witness: a row with vendor cell " " (strips to blank) and a
populated key cell, between two kept rows. -/
theorem c8_witness :
    buildMapping false ([⟨"Acme", ["K1"]⟩] ++ ⟨" ", ["ZZZ"]⟩ :: [⟨"Beta", ["K2"]⟩]) =
      buildMapping false ([⟨"Acme", ["K1"]⟩] ++ [⟨"Beta", ["K2"]⟩]) :=
  c8_blank_vendor_row_skipped false [⟨"Acme", ["K1"]⟩] [⟨"Beta", ["K2"]⟩] ⟨" ", ["ZZZ"]⟩
    (by decide)

theorem dedup_singleton_all_eq {L : List String} {v : String} (hd : L.dedup = [v]) :
    ∀ x ∈ L, x = v := by
  intro x hx
  have hmem : x ∈ L.dedup := List.mem_dedup.mpr hx
  rw [hd] at hmem
  simpa using hmem

/-- C1: the classifier's outcome is a function of the number of distinct
vendors among the surviving matches: 0 distinct vendors gives Unmatched, 1
gives Routed to that (unique) vendor, and 2 or more gives Mixed, in which
case the page goes to the mixed collection, not to any vendor
accumulator. -/
theorem c1_decision_by_distinct_vendor_count (zs : Bool) (mp : List (String × String))
    (store name text : String) (i : Nat) :
    (((buildMatches zs mp (extract_candidates text)).map (fun m => m.vendor)).toFinset.card = 0 →
      processPage zs mp store name i text =
        ⟨Dest.unmatched, ⟨store, name, toString i, "UNMATCHED", "", "", "", "", "0.00"⟩⟩) ∧
    (((buildMatches zs mp (extract_candidates text)).map (fun m => m.vendor)).toFinset.card = 1 →
      ∃ v, (∀ m ∈ buildMatches zs mp (extract_candidates text), m.vendor = v) ∧
        (processPage zs mp store name i text).dest = Dest.vendor v ∧
        (processPage zs mp store name i text).log.vendor = v) ∧
    (2 ≤ ((buildMatches zs mp (extract_candidates text)).map (fun m => m.vendor)).toFinset.card →
      (processPage zs mp store name i text).dest = Dest.mixed ∧
      (∀ v, (processPage zs mp store name i text).dest ≠ Dest.vendor v) ∧
      (processPage zs mp store name i text).log.vendor = "MIXED") := by
  have hcard := List.card_toFinset
    ((buildMatches zs mp (extract_candidates text)).map (fun m => m.vendor))
  refine ⟨?_, ?_, ?_⟩
  · intro h0
    rw [hcard] at h0
    exact processPage_of_dedup_nil zs mp store name text i (List.length_eq_zero.mp h0)
  · intro h1
    rw [hcard] at h1
    rcases List.length_eq_one.mp h1 with ⟨v, hv⟩
    refine ⟨v, fun m hm => dedup_singleton_all_eq hv m.vendor (List.mem_map_of_mem _ hm),
      ?_, ?_⟩
    · rw [processPage_of_dedup_single zs mp store name text i v hv]
    · rw [processPage_of_dedup_single zs mp store name text i v hv]
      rfl
  · intro h2
    rw [hcard] at h2
    rcases hd : ((buildMatches zs mp (extract_candidates text)).map
        (fun m => m.vendor)).dedup with _ | ⟨v1, _ | ⟨v2, vt⟩⟩
    · rw [hd] at h2; simp at h2
    · rw [hd] at h2; simp at h2
    · rw [processPage_of_dedup_multi zs mp store name text i v1 v2 vt hd]
      exact ⟨rfl, fun v => by simp, rfl⟩

/-- C1, witness: one input for each arm (no candidate resolves; both
candidates resolve to one vendor; the two candidates resolve to two
vendors). -/
theorem c1_witness :
    (processPage false [] "Depot" "a.pdf" 0 "" =
      ⟨Dest.unmatched, ⟨"Depot", "a.pdf", toString 0, "UNMATCHED", "", "", "", "", "0.00"⟩⟩) ∧
    (∃ v, (∀ m ∈ buildMatches false [("ABC123", "Acme")]
            (extract_candidates "Model ABC-123"), m.vendor = v) ∧
      (processPage false [("ABC123", "Acme")] "Depot" "a.pdf" 0 "Model ABC-123").dest =
        Dest.vendor v ∧
      (processPage false [("ABC123", "Acme")] "Depot" "a.pdf" 0 "Model ABC-123").log.vendor = v) ∧
    ((processPage false [("ABC123", "Acme"), ("XYZ999", "Beta")] "Depot" "a.pdf" 0
        "Model #: ABC-123 Item# XYZ999").dest = Dest.mixed ∧
      (∀ v, (processPage false [("ABC123", "Acme"), ("XYZ999", "Beta")] "Depot" "a.pdf" 0
        "Model #: ABC-123 Item# XYZ999").dest ≠ Dest.vendor v) ∧
      (processPage false [("ABC123", "Acme"), ("XYZ999", "Beta")] "Depot" "a.pdf" 0
        "Model #: ABC-123 Item# XYZ999").log.vendor = "MIXED") :=
  ⟨(c1_decision_by_distinct_vendor_count false [] "Depot" "a.pdf" "" 0).1 (by decide),
   (c1_decision_by_distinct_vendor_count false [("ABC123", "Acme")] "Depot" "a.pdf"
      "Model ABC-123" 0).2.1 (by decide),
   (c1_decision_by_distinct_vendor_count false [("ABC123", "Acme"), ("XYZ999", "Beta")]
      "Depot" "a.pdf" "Model #: ABC-123 Item# XYZ999" 0).2.2 (by decide)⟩

theorem scoreFor_cases (label : String) :
    (∃ j, anchorOrder.findIdx? (fun x => x = label) = some j ∧
      scoreFor label = 1 - (j : ℚ) / 10) ∨
    (anchorOrder.findIdx? (fun x => x = label) = none ∧ scoreFor label = 1 / 2) := by
  cases h : anchorOrder.findIdx? (fun x => x = label) with
  | some j =>
    left
    refine ⟨j, rfl, ?_⟩
    unfold scoreFor
    rw [h]
  | none =>
    right
    refine ⟨rfl, ?_⟩
    unfold scoreFor
    rw [h]

/-- C2: on a Routed page every surviving match scores
`1 - (its anchor's zero-based priority index) / 10` (or 1/2 for a label
outside the canonical order, which the extractor never produces), all
matches name the routed vendor, and the reported best match is the FIRST
match of maximal score - every match before it scores strictly less - whose
fields the log reports. -/
theorem c2_routed_best_match (zs : Bool) (mp : List (String × String))
    (store name text : String) (i : Nat) (v : String)
    (hroute : (processPage zs mp store name i text).dest = Dest.vendor v) :
    ∃ b, bestOf (buildMatches zs mp (extract_candidates text)) = some b ∧
      b ∈ buildMatches zs mp (extract_candidates text) ∧
      b.vendor = v ∧
      (∀ m ∈ buildMatches zs mp (extract_candidates text),
        m.vendor = v ∧ m.score ≤ b.score ∧
        ((∃ j, anchorOrder.findIdx? (fun x => x = m.anchor) = some j ∧
            m.score = 1 - (j : ℚ) / 10) ∨
         (anchorOrder.findIdx? (fun x => x = m.anchor) = none ∧ m.score = 1 / 2))) ∧
      (∃ l1 l2, buildMatches zs mp (extract_candidates text) = l1 ++ b :: l2 ∧
        ∀ m ∈ l1, m.score < b.score) ∧
      (processPage zs mp store name i text).log.anchor = b.anchor ∧
      (processPage zs mp store name i text).log.raw_token = b.raw := by
  rcases hd : ((buildMatches zs mp (extract_candidates text)).map
      (fun m => m.vendor)).dedup with _ | ⟨v1, _ | ⟨v2, vt⟩⟩
  · rw [processPage_of_dedup_nil zs mp store name text i hd] at hroute
    simp at hroute
  · have hv1 : v1 = v := by
      rw [processPage_of_dedup_single zs mp store name text i v1 hd] at hroute
      simpa using hroute
    subst hv1
    have hne : buildMatches zs mp (extract_candidates text) ≠ [] := by
      intro hnil
      rw [hnil] at hd
      simp at hd
    cases hb : firstMax (buildMatches zs mp (extract_candidates text)) with
    | none => exact absurd ((firstMax_eq_none_iff _).mp hb) hne
    | some b =>
      have hbest : bestOf (buildMatches zs mp (extract_candidates text)) = some b := by
        rw [bestOf_eq_firstMax, hb]
      have hall : ∀ m ∈ buildMatches zs mp (extract_candidates text), m.vendor = v1 :=
        fun m hm => dedup_singleton_all_eq hd m.vendor (List.mem_map_of_mem _ hm)
      refine ⟨b, hbest, firstMax_mem hb, hall b (firstMax_mem hb), ?_, firstMax_first hb,
        ?_, ?_⟩
      · intro m hm
        refine ⟨hall m hm, firstMax_max hb m hm, ?_⟩
        have hs := (buildMatches_mem_spec zs mp (extract_candidates text) m hm).1
        rw [hs]
        exact scoreFor_cases m.anchor
      · rw [processPage_of_dedup_single zs mp store name text i v1 hd]
        show (routedLog store name i v1 (bestOf (buildMatches zs mp
          (extract_candidates text)))).anchor = b.anchor
        rw [hbest]
        rfl
      · rw [processPage_of_dedup_single zs mp store name text i v1 hd]
        show (routedLog store name i v1 (bestOf (buildMatches zs mp
          (extract_candidates text)))).raw_token = b.raw
        rw [hbest]
        rfl
  · rw [processPage_of_dedup_multi zs mp store name text i v1 v2 vt hd] at hroute
    simp at hroute

/-- The two matches of the spec's worked example. -/
def exMatch1 : Match :=
  ⟨"ABC-123", "ABC123", "Acme", "Model", "native", scoreFor "Model"⟩

/-- The second match of the spec's worked example. -/
def exMatch2 : Match :=
  ⟨"XYZ999", "XYZ999", "Acme", "Item", "native", scoreFor "Item"⟩

theorem exBuildMatches :
    buildMatches false [("ABC123", "Acme"), ("XYZ999", "Acme")]
      (extract_candidates "Model #: ABC-123 Item# XYZ999") = [exMatch1, exMatch2] := rfl

theorem scoreFor_Model : scoreFor "Model" = 1 := by
  unfold scoreFor
  rw [show anchorOrder.findIdx? (fun x => x = "Model") = some 0 from rfl]
  norm_num

theorem scoreFor_Item : scoreFor "Item" = 9 / 10 := by
  unfold scoreFor
  rw [show anchorOrder.findIdx? (fun x => x = "Item") = some 1 from rfl]
  norm_num

theorem exScoreLt : ¬ scoreFor "Item" > scoreFor "Model" := by
  rw [scoreFor_Model, scoreFor_Item]
  norm_num

theorem exBest :
    bestOf (buildMatches false [("ABC123", "Acme"), ("XYZ999", "Acme")]
      (extract_candidates "Model #: ABC-123 Item# XYZ999")) = some exMatch1 := by
  rw [bestOf_eq_firstMax, exBuildMatches]
  rw [firstMax_cons_some exMatch1
    (firstMax_cons_none exMatch2 (show firstMax [] = none from rfl))]
  rw [if_neg (show ¬ exMatch2.score > exMatch1.score from exScoreLt)]

theorem exLogAnchor :
    (processPage false [("ABC123", "Acme"), ("XYZ999", "Acme")] "Depot" "a.pdf" 0
      "Model #: ABC-123 Item# XYZ999").log.anchor = "Model" := by
  rw [processPage_of_dedup_single false [("ABC123", "Acme"), ("XYZ999", "Acme")]
    "Depot" "a.pdf" "Model #: ABC-123 Item# XYZ999" 0 "Acme" (by decide)]
  show (routedLog "Depot" "a.pdf" 0 "Acme" (bestOf (buildMatches false
    [("ABC123", "Acme"), ("XYZ999", "Acme")]
    (extract_candidates "Model #: ABC-123 Item# XYZ999")))).anchor = "Model"
  rw [exBest]
  rfl

/-- C2, witness at the spec's worked example: candidates
(Model, "ABC-123") and (Item, "XYZ999") both resolving to "Acme"; the
decision is Routed to Acme and the best match carries anchor label
"Model" (confidence 1 beats Item's 9/10). -/
theorem c2_witness :
    (∃ b, bestOf (buildMatches false [("ABC123", "Acme"), ("XYZ999", "Acme")]
        (extract_candidates "Model #: ABC-123 Item# XYZ999")) = some b ∧
      b ∈ buildMatches false [("ABC123", "Acme"), ("XYZ999", "Acme")]
        (extract_candidates "Model #: ABC-123 Item# XYZ999") ∧
      b.vendor = "Acme" ∧
      (∀ m ∈ buildMatches false [("ABC123", "Acme"), ("XYZ999", "Acme")]
          (extract_candidates "Model #: ABC-123 Item# XYZ999"),
        m.vendor = "Acme" ∧ m.score ≤ b.score ∧
        ((∃ j, anchorOrder.findIdx? (fun x => x = m.anchor) = some j ∧
            m.score = 1 - (j : ℚ) / 10) ∨
         (anchorOrder.findIdx? (fun x => x = m.anchor) = none ∧ m.score = 1 / 2))) ∧
      (∃ l1 l2, buildMatches false [("ABC123", "Acme"), ("XYZ999", "Acme")]
          (extract_candidates "Model #: ABC-123 Item# XYZ999") = l1 ++ b :: l2 ∧
        ∀ m ∈ l1, m.score < b.score) ∧
      (processPage false [("ABC123", "Acme"), ("XYZ999", "Acme")] "Depot" "a.pdf" 0
        "Model #: ABC-123 Item# XYZ999").log.anchor = b.anchor ∧
      (processPage false [("ABC123", "Acme"), ("XYZ999", "Acme")] "Depot" "a.pdf" 0
        "Model #: ABC-123 Item# XYZ999").log.raw_token = b.raw) ∧
    (processPage false [("ABC123", "Acme"), ("XYZ999", "Acme")] "Depot" "a.pdf" 0
      "Model #: ABC-123 Item# XYZ999").dest = Dest.vendor "Acme" ∧
    (processPage false [("ABC123", "Acme"), ("XYZ999", "Acme")] "Depot" "a.pdf" 0
      "Model #: ABC-123 Item# XYZ999").log.anchor = "Model" :=
  ⟨c2_routed_best_match false [("ABC123", "Acme"), ("XYZ999", "Acme")] "Depot" "a.pdf"
     "Model #: ABC-123 Item# XYZ999" 0 "Acme" (by decide), by decide, exLogAnchor⟩

/-! ### Run-level counting (for the exactly-once routing invariant) -/

theorem stepPage_eq_match (zs : Bool) (mp : List (String × String)) (store : String)
    (st : RunState) (name : String) (d i : Nat) (t : String) :
    stepPage zs mp store st name d i t =
      match (processPage zs mp store name i t).dest with
      | Dest.vendor v =>
        { writers := ensure_writer_add st.writers v (d, i), mixed := st.mixed
          unmatched := st.unmatched
          logs := st.logs ++ [(processPage zs mp store name i t).log] }
      | Dest.mixed =>
        { writers := st.writers, mixed := st.mixed ++ [(d, i)]
          unmatched := st.unmatched
          logs := st.logs ++ [(processPage zs mp store name i t).log] }
      | Dest.unmatched =>
        { writers := st.writers, mixed := st.mixed
          unmatched := st.unmatched ++ [(d, i)]
          logs := st.logs ++ [(processPage zs mp store name i t).log] } := rfl

theorem count_singleton_eq (id pg : PageId) :
    List.count id [pg] = if id = pg then 1 else 0 := by
  by_cases h : id = pg
  · rw [if_pos h, h]
    simp
  · rw [if_neg h]
    simp [h]

theorem ensure_writer_add_count (ws : List (String × List PageId)) (v : String)
    (pg id : PageId) :
    ((ensure_writer_add ws v pg).map (fun p => p.2.count id)).sum =
      (ws.map (fun p => p.2.count id)).sum + (if id = pg then 1 else 0) := by
  induction ws with
  | nil =>
    simp only [ensure_writer_add, List.map_cons, List.map_nil, List.sum_cons, List.sum_nil]
    rw [count_singleton_eq]
    omega
  | cons w ws ih =>
    show (List.map _ (if w.1 = v then (w.1, w.2 ++ [pg]) :: ws
      else (w.1, w.2) :: ensure_writer_add ws v pg)).sum = _
    by_cases h : w.1 = v
    · rw [if_pos h]
      simp only [List.map_cons, List.sum_cons, List.count_append]
      rw [count_singleton_eq]
      omega
    · rw [if_neg h]
      simp only [List.map_cons, List.sum_cons]
      rw [ih]
      omega

theorem pageCount_step (zs : Bool) (mp : List (String × String)) (store : String)
    (st : RunState) (name : String) (d i : Nat) (t : String) (id : PageId) :
    pageCount id (stepPage zs mp store st name d i t) =
      pageCount id st + (if id = (d, i) then 1 else 0) := by
  rw [stepPage_eq_match]
  cases (processPage zs mp store name i t).dest with
  | vendor v =>
    show (List.map _ (ensure_writer_add st.writers v (d, i))).sum +
      st.mixed.count id + st.unmatched.count id = _
    rw [ensure_writer_add_count]
    unfold pageCount
    omega
  | mixed =>
    show (List.map _ st.writers).sum + (st.mixed ++ [(d, i)]).count id +
      st.unmatched.count id = _
    rw [List.count_append, count_singleton_eq]
    unfold pageCount
    omega
  | unmatched =>
    show (List.map _ st.writers).sum + st.mixed.count id +
      (st.unmatched ++ [(d, i)]).count id = _
    rw [List.count_append, count_singleton_eq]
    unfold pageCount
    omega

theorem logs_step (zs : Bool) (mp : List (String × String)) (store : String)
    (st : RunState) (name : String) (d i : Nat) (t : String) :
    (stepPage zs mp store st name d i t).logs.length = st.logs.length + 1 := by
  rw [stepPage_eq_match]
  cases (processPage zs mp store name i t).dest <;> simp

theorem pageCount_pages (zs : Bool) (mp : List (String × String)) (store name : String)
    (d a b : Nat) : ∀ (texts : List String) (st : RunState) (i0 : Nat),
    pageCount (a, b) (processPagesFrom zs mp store name d st i0 texts) =
      pageCount (a, b) st +
        (if a = d ∧ i0 ≤ b ∧ b < i0 + texts.length then 1 else 0) := by
  intro texts
  induction texts with
  | nil =>
    intro st i0
    show pageCount (a, b) st = _
    simp only [List.length_nil]
    split_ifs with h <;> omega
  | cons t ts ih =>
    intro st i0
    show pageCount (a, b) (processPagesFrom zs mp store name d
      (stepPage zs mp store st name d i0 t) (i0 + 1) ts) = _
    rw [ih, pageCount_step]
    simp only [Prod.mk.injEq, List.length_cons]
    split_ifs <;> omega

theorem logs_pages (zs : Bool) (mp : List (String × String)) (store name : String)
    (d : Nat) : ∀ (texts : List String) (st : RunState) (i0 : Nat),
    (processPagesFrom zs mp store name d st i0 texts).logs.length =
      st.logs.length + texts.length := by
  intro texts
  induction texts with
  | nil => intro st i0; rfl
  | cons t ts ih =>
    intro st i0
    show (processPagesFrom zs mp store name d
      (stepPage zs mp store st name d i0 t) (i0 + 1) ts).logs.length = _
    rw [ih, logs_step]
    simp only [List.length_cons]
    omega

/-- How many documents of `docs` (numbered from `d0`) contain the page
(a, b): the number of indices `k` with `a = d0 + k` and `b` a valid page
index of the k-th document.  For a well-formed call this is 0 or 1. -/
def coveredCount (a b : Nat) : Nat → List Doc → Nat
  | _, [] => 0
  | d0, doc :: docs =>
    (if a = d0 ∧ b < doc.pages.length then 1 else 0) + coveredCount a b (d0 + 1) docs

theorem pageCount_docs (zs : Bool) (mp : List (String × String)) (store : String)
    (a b : Nat) : ∀ (docs : List Doc) (st : RunState) (d0 : Nat),
    pageCount (a, b) (processDocsFrom zs mp store st d0 docs) =
      pageCount (a, b) st + coveredCount a b d0 docs := by
  intro docs
  induction docs with
  | nil => intro st d0; show pageCount (a, b) st = _; simp [coveredCount]
  | cons doc docs ih =>
    intro st d0
    show pageCount (a, b) (processDocsFrom zs mp store
      (processPagesFrom zs mp store doc.name d0 st 0 doc.pages) (d0 + 1) docs) = _
    rw [ih, pageCount_pages]
    show _ = pageCount (a, b) st +
      ((if a = d0 ∧ b < doc.pages.length then 1 else 0) + coveredCount a b (d0 + 1) docs)
    split_ifs <;> omega

theorem logs_docs (zs : Bool) (mp : List (String × String)) (store : String) :
    ∀ (docs : List Doc) (st : RunState) (d0 : Nat),
    (processDocsFrom zs mp store st d0 docs).logs.length =
      st.logs.length + (docs.map (fun d => d.pages.length)).sum := by
  intro docs
  induction docs with
  | nil => intro st d0; simp; rfl
  | cons doc docs ih =>
    intro st d0
    show (processDocsFrom zs mp store
      (processPagesFrom zs mp store doc.name d0 st 0 doc.pages) (d0 + 1) docs).logs.length = _
    rw [ih, logs_pages]
    simp
    omega

theorem coveredCount_zero_of_lt (a b : Nat) :
    ∀ (docs : List Doc) (d0 : Nat), a < d0 → coveredCount a b d0 docs = 0 := by
  intro docs
  induction docs with
  | nil => intro d0 _; rfl
  | cons doc docs ih =>
    intro d0 h
    show (if a = d0 ∧ b < doc.pages.length then 1 else 0) + coveredCount a b (d0 + 1) docs = 0
    rw [ih (d0 + 1) (by omega), if_neg (by omega)]

theorem coveredCount_of_valid (b : Nat) :
    ∀ (docs : List Doc) (k d0 : Nat) (doc : Doc), docs.get? k = some doc →
      b < doc.pages.length → coveredCount (d0 + k) b d0 docs = 1 := by
  intro docs
  induction docs with
  | nil => intro k d0 doc hk; simp at hk
  | cons d docs ih =>
    intro k d0 doc hk hb
    cases k with
    | zero =>
      have hd : d = doc := by simpa using hk
      show (if d0 + 0 = d0 ∧ b < d.pages.length then 1 else 0) +
        coveredCount (d0 + 0) b (d0 + 1) docs = 1
      rw [coveredCount_zero_of_lt _ b docs (d0 + 1) (by omega),
        if_pos ⟨by omega, by rw [hd]; exact hb⟩]
    | succ k1 =>
      have hk1 : docs.get? k1 = some doc := by simpa using hk
      show (if d0 + (k1 + 1) = d0 ∧ b < d.pages.length then 1 else 0) +
        coveredCount (d0 + (k1 + 1)) b (d0 + 1) docs = 1
      have := ih k1 (d0 + 1) doc hk1 hb
      rw [if_neg (by omega)]
      rw [show d0 + (k1 + 1) = (d0 + 1) + k1 from by omega]
      rw [this]

/-- C5: over a whole run, exactly one log record is appended per processed
page (the log grows by the total page count), and every processed page -
identified by (document position, page index) - lands in exactly one of the
vendor accumulators, the mixed collection and the unmatched collection:
its total occurrence count across all destinations is exactly 1. -/
theorem c5_exactly_once_and_log_count (zs : Bool) (mp : List (String × String))
    (store : String) (docs : List Doc) :
    (processRun zs mp store docs).logs.length =
      (docs.map (fun d => d.pages.length)).sum ∧
    ∀ (a b : Nat) (doc : Doc), docs.get? a = some doc → b < doc.pages.length →
      pageCount (a, b) (processRun zs mp store docs) = 1 := by
  constructor
  · unfold processRun
    rw [logs_docs]
    simp [emptyState]
  · intro a b doc ha hb
    unfold processRun
    rw [pageCount_docs]
    have h2 := coveredCount_of_valid b docs a 0 doc ha hb
    rw [Nat.zero_add] at h2
    rw [show pageCount (a, b) emptyState = 0 from rfl, h2]

/-- C5, witness: a run over two documents with three pages total (one
unmatched empty page, one routed page, one unmatched page). -/
theorem c5_witness :
    (processRun false [("ABC123", "Acme")] "Depot"
      [⟨"a.pdf", ["", "Model ABC-123"]⟩, ⟨"b.pdf", ["junk"]⟩]).logs.length =
      (([⟨"a.pdf", ["", "Model ABC-123"]⟩, ⟨"b.pdf", ["junk"]⟩] : List Doc).map
        (fun d => d.pages.length)).sum ∧
    pageCount (0, 1) (processRun false [("ABC123", "Acme")] "Depot"
      [⟨"a.pdf", ["", "Model ABC-123"]⟩, ⟨"b.pdf", ["junk"]⟩]) = 1 :=
  ⟨(c5_exactly_once_and_log_count false [("ABC123", "Acme")] "Depot"
      [⟨"a.pdf", ["", "Model ABC-123"]⟩, ⟨"b.pdf", ["junk"]⟩]).1,
   (c5_exactly_once_and_log_count false [("ABC123", "Acme")] "Depot"
      [⟨"a.pdf", ["", "Model ABC-123"]⟩, ⟨"b.pdf", ["junk"]⟩]).2 0 1
      ⟨"a.pdf", ["", "Model ABC-123"]⟩ rfl (by decide)⟩
